import Mathlib

/-!
Shallow embedding of the versioned-block storage engine and rollback-journal
emulator of src/src/examples/IndexedDbVFS.js.

Modelling conventions:
* JS `Int8Array` buffers are modelled as `List Nat` of raw byte values
  (the code converts signed values back to raw bytes wherever it does
  arithmetic, e.g. in the checksum, so raw bytes are the faithful view).
* IndexedDB keys used by this program are arrays of number and string
  components; they are modelled by `List KComp` with the IndexedDB
  component ordering (numbers sort before strings, strings before arrays;
  a shorter array that is a prefix of a longer one sorts first).
* The blocks object store is a `List FileBlock`, with `get` on a key range
  returning the record with the least key in the range, `put` replacing
  the record with an equal key, and ranged `delete` filtering.
* Operations that would throw a JS exception (reading a property of
  `undefined`, an invalid IndexedDB key) return `none`.
-/

namespace IndexedDbVFS

/-! ### Engine-facing constants (values of the SQLite C interface, which
`src/VFS.js` re-exports unchanged per the spec). -/

def SQLITE_OK : Int := 0

def SQLITE_IOERR_SHORT_READ : Int := 522

def SQLITE_OPEN_DELETEONCLOSE : Nat := 0x8

def SQLITE_OPEN_MAIN_JOURNAL : Nat := 0x800

def SQLITE_OPEN_TEMP_JOURNAL : Nat := 0x1000

def SQLITE_LOCK_RESERVED : Int := 2

def BLOCK_SIZE : Nat := 4096

/-! ### IndexedDB keys -/

/-- A JS number appearing in an IndexedDB key: either an integer or
`Infinity` (used as an upper sentinel in key ranges). -/
inductive JsNum where
  | int (i : Int)
  | inf
deriving DecidableEq

/-- IndexedDB ordering on numbers. -/
def JsNum.ltb : JsNum → JsNum → Bool
  | .int a, .int b => decide (a < b)
  | .int _, .inf => true
  | .inf, _ => false

/-- Code-point comparison of characters. -/
def charLtb (a b : Char) : Bool := decide (a.toNat < b.toNat)

def strLtbAux : List Char → List Char → Bool
  | [], [] => false
  | [], _ :: _ => true
  | _ :: _, [] => false
  | a :: as, b :: bs => charLtb a b || (decide (a = b) && strLtbAux as bs)

/-- IndexedDB ordering on strings (code-unit lexicographic; for the ASCII
paths and the literal "purge" used by this program this is the plain
code-point order). -/
def strLtb (a b : String) : Bool := strLtbAux a.data b.data

/-- One component of an IndexedDB array key, as used by this program:
a number, a string (file names and the literal "purge"), or the empty
array `[]` used as an upper sentinel. -/
inductive KComp where
  | num (n : JsNum)
  | str (s : String)
  | emptyArr
deriving DecidableEq

/-- IndexedDB ordering on key components: number < string < array. -/
def KComp.ltb : KComp → KComp → Bool
  | .num a, .num b => JsNum.ltb a b
  | .num _, .str _ => true
  | .num _, .emptyArr => true
  | .str _, .num _ => false
  | .str a, .str b => strLtb a b
  | .str _, .emptyArr => true
  | .emptyArr, _ => false

/-- IndexedDB ordering on array keys: lexicographic, a strict prefix is
smaller. -/
def keyLt : List KComp → List KComp → Bool
  | [], [] => false
  | [], _ :: _ => true
  | _ :: _, [] => false
  | a :: as, b :: bs => KComp.ltb a b || (decide (a = b) && keyLt as bs)

def keyLe (a b : List KComp) : Bool := keyLt a b || decide (a = b)

/-- Membership of key `k` in an `IDBKeyRange.bound(lo, hi, loOpen, hiOpen)`. -/
def inRange (lo hi : List KComp) (loOpen hiOpen : Bool) (k : List KComp) : Bool :=
  (if loOpen then keyLt lo k else keyLe lo k) &&
  (if hiOpen then keyLt k hi else keyLe k hi)

/-! ### Block records -/

/-- Payload of a record in the blocks store: file data bytes for ordinary
blocks, or the page-index-to-version map of the synthetic purge record. -/
inductive BlockData where
  | bytes (bs : List Nat)
  | purgeMap (m : List (Int × Int))
deriving DecidableEq

def BlockData.toBytes : BlockData → List Nat
  | .bytes bs => bs
  | .purgeMap _ => []

def BlockData.toPurgeMap : BlockData → List (Int × Int)
  | .bytes _ => []
  | .purgeMap m => m

/-- A record of the IndexedDB `blocks` object store, keyed by
`(name, index, version)`.  `fileSize` is meaningful only on block 0 of a
file (the code never reads it elsewhere). -/
structure FileBlock where
  name : String
  index : KComp
  version : Int
  data : BlockData
  fileSize : Nat
deriving DecidableEq

def recordKey (r : FileBlock) : List KComp :=
  [.str r.name, r.index, .num (.int r.version)]

/-! ### The blocks object store -/

/-- `get` on a key range: the record with the least key in the range. -/
def kvsGetRange (store : List FileBlock) (lo hi : List KComp) (loOpen hiOpen : Bool) :
    Option FileBlock :=
  store.foldl (fun best r =>
    if inRange lo hi loOpen hiOpen (recordKey r) then
      match best with
      | none => some r
      | some b => if keyLt (recordKey r) (recordKey b) then some r else some b
    else best) none

/-- `get` on an exact key. -/
def kvsGetKey (store : List FileBlock) (k : List KComp) : Option FileBlock :=
  store.find? (fun r => decide (recordKey r = k))

/-- `put`: replace the record with an equal key, else insert. -/
def kvsPut (store : List FileBlock) (r : FileBlock) : List FileBlock :=
  r :: store.filter (fun x => !(decide (recordKey x = recordKey r)))

/-- `delete` on a key range. -/
def kvsDeleteRange (store : List FileBlock) (lo hi : List KComp) (loOpen hiOpen : Bool) :
    List FileBlock :=
  store.filter (fun r => !(inRange lo hi loOpen hiOpen (recordKey r)))

/-- `delete` on an exact key. -/
def kvsDeleteKey (store : List FileBlock) (k : List KComp) : List FileBlock :=
  store.filter (fun r => !(decide (recordKey r = k)))

/-- The newest committed version of a block: the `get` the code itself
issues at open time, `blocks.get(IDBKeyRange.bound([path, idx], [path, idx,
Infinity]))`, which returns the record with the most negative version. -/
def newestBlock (store : List FileBlock) (path : String) (idx : Int) : Option FileBlock :=
  kvsGetRange store [.str path, .num (.int idx)] [.str path, .num (.int idx), .num .inf]
    false false

/-! ### Opened files and buffers -/

/-- In-memory state of one opened file (the `OpenedFileEntry` typedef).
`journalPages` is a JS array that can be sparse, hence `Option` elements;
`changedPages` is a JS `Set` modelled as a duplicate-free list.
`cachedPageIndex`/`cachedPageEntry` are the per-file fields declared in the
typedef; the journal read path reads `file.cachedPageIndex` but only ever
assigns the same-named fields on the VFS object (see `VfsCache`). -/
structure OpenedFileEntry where
  path : String
  flags : Nat
  block0 : FileBlock
  journalPages : List (Option Int)
  changedPages : Option (List Int)
  cachedPageIndex : Option Int
  cachedPageEntry : Option (List Nat)
deriving DecidableEq

/-- The VFS-object-level `cachedPageIndex`/`cachedPageEntry` fields that
`#xReadJournal` actually assigns (`this.cachedPageIndex = ...`). -/
structure VfsCache where
  cachedPageIndex : Option Int
  cachedPageEntry : Option (List Nat)
deriving DecidableEq

def isJournal (file : OpenedFileEntry) : Bool :=
  decide (file.flags &&& (SQLITE_OPEN_MAIN_JOURNAL ||| SQLITE_OPEN_TEMP_JOURNAL) ≠ 0)

/-- `#getJournalDatabasePath`: strip a trailing "-journal" from the path
(the regex replace of the source matches the 8-character suffix at the
end of the string, if present). -/
def journalDatabasePath (p : String) : String :=
  if 8 ≤ p.data.length ∧ p.data.drop (p.data.length - 8) = "-journal".data then
    ⟨p.data.take (p.data.length - 8)⟩
  else p

/-- `TypedArray.prototype.subarray(b, e)` (indices clamped to the array). -/
def jsSubarray (buf : List Nat) (b e : Nat) : List Nat :=
  (buf.drop b).take (e - b)

/-- `dst.set(src, off)` for typed arrays, as a pure function.  When
`off + src.length ≤ dst.length` (the only case arising in the claims; JS
throws otherwise) this overwrites `dst[off ..= off+src.length-1]` with
`src`. -/
def jsSetAt (dst src : List Nat) (off : Nat) : List Nat :=
  dst.take off ++ src.take (dst.length - off) ++ dst.drop (off + src.length)

/-- `buf.fill(v, start)` for typed arrays: fills positions
`start ..= buf.length - 1` with `v`. -/
def jsFillFrom (buf : List Nat) (v : Nat) (start : Nat) : List Nat :=
  buf.take start ++ List.replicate (buf.length - start) v

/-- `DataView.prototype.getUint32(off)` (big-endian). -/
def getU32 (bs : List Nat) (off : Nat) : Nat :=
  bs.getD off 0 * 2 ^ 24 + bs.getD (off + 1) 0 * 2 ^ 16 +
    bs.getD (off + 2) 0 * 2 ^ 8 + bs.getD (off + 3) 0

/-- Big-endian bytes of a 32-bit value. -/
def encodeU32 (v : Nat) : List Nat :=
  [v / 2 ^ 24 % 256, v / 2 ^ 16 % 256, v / 2 ^ 8 % 256, v % 256]

/-- `DataView.prototype.setUint32(off, v)` (big-endian, value taken
modulo 2^32). -/
def setU32 (bs : List Nat) (off : Nat) (v : Nat) : List Nat :=
  jsSetAt bs (encodeU32 (v % 2 ^ 32)) off

/-! ### Checksum (`#checksum`) and journal page entries -/

/-- The loop of `#checksum`: starting from the nonce, add the unsigned
byte at position `x` and step `x` down by 200 while `x > 0`.  (`List Nat`
elements are raw bytes, which is exactly what
`value >= 0 ? value : value + 256` computes from the signed `Int8Array`
read.)  The first argument bounds the number of iterations (each
iteration lowers `x` by 200, so `pageSize` iterations always suffice);
structural recursion on it lets the definition evaluate by kernel
reduction. -/
def checksumAux (data : List Nat) : Nat → Int → Nat → Nat
  | 0, _, acc => acc
  | fuel + 1, x, acc =>
    if 0 < x then checksumAux data fuel (x - 200) (acc + data.getD x.toNat 0) else acc

/-- `#checksum(data, nonce, pageSize)`. -/
def checksum (data : List Nat) (nonce : Nat) (pageSize : Nat) : Nat :=
  checksumAux data pageSize ((pageSize : Int) - 200) nonce

/-- The checksum as the spec sentence words it: the sum of the page bytes
at positions `pageSize-200, pageSize-400, ...` for as long as the position
stays strictly positive. -/
def specPositionSum (data : List Nat) (x : Int) : Nat :=
  if 0 < x then data.getD x.toNat 0 + specPositionSum data (x - 200) else 0
termination_by x.toNat
decreasing_by simp_wf; omega

/-- The rollback page entry built by `#xReadJournal` on a cache miss:
a zero-filled `Int8Array(entrySize)`, then `setUint32(0, pageIndex + 1)`,
then `set(blockBytes, 4)`, then `setUint32(entrySize - 4, checksum)`. -/
def buildPageEntry (pageIndex : Int) (blockBytes : List Nat) (nonce : Nat)
    (pageSize entrySize : Nat) : List Nat :=
  setU32
    (jsSetAt (setU32 (List.replicate entrySize 0) 0 ((pageIndex + 1).emod (2 ^ 32)).toNat)
      blockBytes 4)
    (entrySize - 4) (checksum blockBytes nonce pageSize)

/-! ### Reads -/

/-- Result of a read on a database file: the possibly updated opened-file
entry (block 0 can be reconciled with a newer stored copy), the caller's
buffer after the transfer, and the status code. -/
structure ReadOutcome where
  file : OpenedFileEntry
  buf : List Nat
  status : Int
deriving DecidableEq

/-- The while loop of `#xReadGeneral`.  `blockSize` is hoisted out of the
loop in the source (it reads it once before the first iteration). -/
def xReadGeneralLoop (store : List FileBlock) (path : String) (blockSize : Nat)
    (block0 : FileBlock) (buf : List Nat) (bufferOffset fileOffset bytesRemaining : Nat) :
    Option (FileBlock × List Nat × Nat) :=
  if bytesRemaining = 0 then some (block0, buf, bufferOffset)
  else if _hbs : blockSize = 0 then none
  else
    let blockIndex := fileOffset / blockSize
    let blockOffset := fileOffset % blockSize
    let blockBytes := min (blockSize - blockOffset) bytesRemaining
    let fetched := kvsGetRange store
      [.str path, .num (.int blockIndex), .num (.int block0.version)]
      [.str path, .num (.int blockIndex), .num .inf] false false
    let b := fetched.getD block0
    let block0' := if blockIndex = 0 ∧ block0.version > b.version then b else block0
    let blk :=
      if blockIndex = 0 then
        (if block0.version > b.version then b else block0)
      else b
    let buf' := jsSetAt buf (jsSubarray blk.data.toBytes blockOffset (blockOffset + blockBytes))
      bufferOffset
    xReadGeneralLoop store path blockSize block0' buf' (bufferOffset + blockBytes)
      (fileOffset + blockBytes) (bytesRemaining - blockBytes)
termination_by bytesRemaining
decreasing_by
  simp_wf
  have h1 : fileOffset % blockSize < blockSize := Nat.mod_lt _ (by omega)
  omega

/-- `#xReadGeneral`: the slow path for reads that cross a block boundary. -/
def xReadGeneral (store : List FileBlock) (file : OpenedFileEntry) (buf : List Nat)
    (iOffset : Nat) : Option ReadOutcome :=
  let bgn := min iOffset file.block0.fileSize
  let en := min (iOffset + buf.length) file.block0.fileSize
  let blockSize := file.block0.data.toBytes.length
  match xReadGeneralLoop store file.path blockSize file.block0 buf 0 iOffset (en - bgn) with
  | none => none
  | some (block0', buf', bufferOffset) =>
    if bufferOffset ≠ buf.length then
      let filledTail := jsFillFrom (buf'.drop bufferOffset) 0 (buf.length - bufferOffset)
      some ⟨{ file with block0 := block0' }, buf'.take bufferOffset ++ filledTail,
        SQLITE_IOERR_SHORT_READ⟩
    else
      some ⟨{ file with block0 := block0' }, buf', SQLITE_OK⟩

/-- `xRead` on a non-journal file (the journal dispatch is `xReadJournal`).
The caller's `pData` is a buffer `buf` with `pData.size = buf.length`. -/
def xRead (store : List FileBlock) (file : OpenedFileEntry) (buf : List Nat)
    (iOffset : Nat) : Option ReadOutcome :=
  let blockSize := file.block0.data.toBytes.length
  let blockIndex := iOffset / blockSize
  if iOffset + buf.length > (blockIndex + 1) * blockSize then
    xReadGeneral store file buf iOffset
  else if iOffset ≥ file.block0.fileSize then
    some ⟨file, jsFillFrom buf 0 buf.length, SQLITE_IOERR_SHORT_READ⟩
  else
    match kvsGetRange store
      [.str file.path, .num (.int blockIndex), .num (.int file.block0.version)]
      [.str file.path, .num (.int blockIndex), .num .inf] false false with
    | none => none
    | some b =>
      let file' :=
        if blockIndex = 0 ∧ file.block0.version > b.version then { file with block0 := b }
        else file
      let blk :=
        if blockIndex = 0 then
          (if file.block0.version > b.version then b else file.block0)
        else b
      let blockOffset := iOffset % blockSize
      some ⟨file', jsSetAt buf (jsSubarray blk.data.toBytes blockOffset
        (blockOffset + buf.length)) 0, SQLITE_OK⟩

/-- Result of a journal read: the VFS-level page-entry cache after the
call, the caller's buffer after the transfer, and the status. -/
structure JournalReadOutcome where
  cache : VfsCache
  buf : List Nat
  status : Int
deriving DecidableEq

/-- `#xReadJournal`.  `dbFile` is the opened sibling database file
(`this.#mapPathToFile.get(dbPath)`; the claims assume it is open, as the
code would throw otherwise).  Note the source tests the never-assigned
per-file `file.cachedPageIndex` but reads and writes the VFS-level cache. -/
def xReadJournal (store : List FileBlock) (cache : VfsCache)
    (file dbFile : OpenedFileEntry) (buf : List Nat) (iOffset : Nat) :
    Option JournalReadOutcome :=
  let hdr := file.block0.data.toBytes
  let sectorSize := getU32 hdr 20
  let entrySize := dbFile.block0.data.toBytes.length + 8
  if iOffset ≥ sectorSize then
    let entryIndex := (iOffset - sectorSize) / entrySize
    match dbFile.journalPages.getD entryIndex none with
    | none => none
    | some pageIndex =>
      let dbPath := journalDatabasePath file.path
      if file.cachedPageIndex ≠ some pageIndex then
        match kvsGetRange store
          [.str dbPath, .num (.int pageIndex), .num (.int dbFile.block0.version)]
          [.str dbPath, .num (.int pageIndex), .num .inf] true false with
        | none => none
        | some block =>
          let nonce := getU32 hdr 12
          let pageSize := dbFile.block0.data.toBytes.length
          let e := buildPageEntry pageIndex block.data.toBytes nonce pageSize entrySize
          let skip := (iOffset - sectorSize) % entrySize
          some ⟨⟨some pageIndex, some e⟩,
            jsSetAt buf (jsSubarray e skip (skip + buf.length)) 0, SQLITE_OK⟩
      else
        match cache.cachedPageEntry with
        | none => none
        | some e =>
          let skip := (iOffset - sectorSize) % entrySize
          some ⟨cache, jsSetAt buf (jsSubarray e skip (skip + buf.length)) 0, SQLITE_OK⟩
  else
    some ⟨cache, jsSetAt buf (jsSubarray hdr iOffset (iOffset + buf.length)) 0, SQLITE_OK⟩

/-! ### Writes -/

/-- Result of a write on a database file. -/
structure WriteOutcome where
  file : OpenedFileEntry
  store : List FileBlock
  status : Int
deriving DecidableEq

/-- JS `Set.prototype.add` on a duplicate-free list. -/
def setAdd (s : List Int) (v : Int) : List Int :=
  if v ∈ s then s else s ++ [v]

/-- The slow-path test of `xWrite` (lines 320-323):
`iOffset !== blockIndex * blockSize || (iOffset < fileSize && size !== blockSize)`
with `blockIndex = (iOffset / blockSize) | 0`. -/
def xWriteDispatch (blockSize fileSize iOffset size : Nat) : Bool :=
  let blockIndex := iOffset / blockSize
  decide (iOffset ≠ blockIndex * blockSize) ||
    (decide (iOffset < fileSize) && decide (size ≠ blockSize))

/-- The while loop of `#xWriteGeneral`.  `changed` is the (optional)
`changedPages` set; `lastBlockIndex` is hoisted before the loop. -/
def xWriteGeneralLoop (path : String) (blockSize lastBlockIndex : Nat)
    (block0 : FileBlock) (store : List FileBlock) (changed : Option (List Int))
    (src : List Nat) (bufferOffset fileOffset bytesRemaining : Nat) :
    Option (FileBlock × List FileBlock × Option (List Int)) :=
  if bytesRemaining = 0 then some (block0, store, changed)
  else if _hbs : blockSize = 0 then none
  else
    let blockIndex := fileOffset / blockSize
    let blockOffset := fileOffset % blockSize
    let blockBytes := min (blockSize - blockOffset) bytesRemaining
    let blockRead : Option FileBlock :=
      if blockIndex = 0 then some block0
      else if blockIndex ≤ lastBlockIndex ∧ blockBytes < blockSize then
        kvsGetRange store [.str path, .num (.int blockIndex)]
          [.str path, .num (.int blockIndex), .num .inf] false false
      else some ⟨block0.name, .num (.int blockIndex), block0.version,
        .bytes (List.replicate blockSize 0), 0⟩
    match blockRead with
    | none => none
    | some blk =>
      let newData := jsSetAt blk.data.toBytes
        (jsSubarray src bufferOffset (bufferOffset + blockBytes)) blockOffset
      let blk' := { blk with data := .bytes newData }
      let block0' := if blockIndex = 0 then blk' else block0
      let store' := if blockIndex = 0 then store else kvsPut store blk'
      let changed' := changed.map (fun s => setAdd s blockIndex)
      xWriteGeneralLoop path blockSize lastBlockIndex block0' store' changed' src
        (bufferOffset + blockBytes) (fileOffset + blockBytes) (bytesRemaining - blockBytes)
termination_by bytesRemaining
decreasing_by
  simp_wf
  have h1 : fileOffset % blockSize < blockSize := Nat.mod_lt _ (by omega)
  omega

/-- `#xWriteGeneral`: read-modify-write over each touched block. -/
def xWriteGeneral (file : OpenedFileEntry) (store : List FileBlock) (buf : List Nat)
    (iOffset : Nat) : Option WriteOutcome :=
  let blockSize := file.block0.data.toBytes.length
  let lastBlockIndex := file.block0.fileSize / blockSize
  match xWriteGeneralLoop file.path blockSize lastBlockIndex file.block0 store
    file.changedPages buf 0 iOffset buf.length with
  | none => none
  | some (block0', store', changed') =>
    let b0 := { block0' with fileSize := max block0'.fileSize (iOffset + buf.length) }
    some ⟨{ file with block0 := b0, changedPages := changed' }, store', SQLITE_OK⟩

/-- `xWrite` on a non-journal file: dispatch to the slow path per
`xWriteDispatch`, else the fast path (a single fresh record put to the
KVS, except block 0 which is only mutated in memory). -/
def xWriteDb (file : OpenedFileEntry) (store : List FileBlock) (buf : List Nat)
    (iOffset : Nat) : Option WriteOutcome :=
  let blockSize := file.block0.data.toBytes.length
  if xWriteDispatch blockSize file.block0.fileSize iOffset buf.length then
    xWriteGeneral file store buf iOffset
  else
    if buf.length > blockSize then none
    else
      let fileSize' := max file.block0.fileSize (iOffset + buf.length)
      let blockIndex := iOffset / blockSize
      if blockIndex = 0 then
        let b0 := { file.block0 with
          fileSize := fileSize',
          data := .bytes (jsSetAt file.block0.data.toBytes buf 0) }
        some ⟨{ file with
          block0 := b0,
          changedPages := file.changedPages.map (fun s => setAdd s 0) }, store, SQLITE_OK⟩
      else
        let blk : FileBlock := ⟨file.block0.name, .num (.int blockIndex),
          file.block0.version, .bytes (jsSetAt (List.replicate blockSize 0) buf 0), 0⟩
        some ⟨{ file with
          block0 := { file.block0 with fileSize := fileSize' },
          changedPages := file.changedPages.map (fun s => setAdd s blockIndex) },
          kvsPut store blk, SQLITE_OK⟩

/-- Result of a journal write: the journal file entry, the sibling
database file entry, and the status. -/
structure JournalWriteOutcome where
  file : OpenedFileEntry
  dbFile : OpenedFileEntry
  status : Int
deriving DecidableEq

/-- Assignment `l[i] = v` on a JS array, padding with holes (`none`). -/
def setSparse (l : List (Option Int)) (i : Nat) (v : Int) : List (Option Int) :=
  (l ++ List.replicate (i + 1 - l.length) none).set i (some v)

/-- `#xWriteJournal`.  `dbFile` is the opened sibling database file. -/
def xWriteJournal (file dbFile : OpenedFileEntry) (buf : List Nat) (iOffset : Nat) :
    JournalWriteOutcome :=
  if iOffset = 0 then
    let hdr := jsSetAt file.block0.data.toBytes
      (jsSubarray buf 0 file.block0.data.toBytes.length) 0
    let fileSize' := max file.block0.fileSize buf.length
    if hdr.getD 0 0 ≠ 0 then
      ⟨{ file with
          block0 := { file.block0 with data := .bytes hdr, fileSize := fileSize' },
          cachedPageIndex := some (-1), cachedPageEntry := none },
        { dbFile with
          journalPages := [],
          changedPages := some [],
          block0 := { dbFile.block0 with version := dbFile.block0.version - 1 } },
        SQLITE_OK⟩
    else
      ⟨{ file with
          block0 := { file.block0 with data := .bytes hdr, fileSize := fileSize' } },
        dbFile, SQLITE_OK⟩
  else
    let hdr := file.block0.data.toBytes
    let sectorSize := getU32 hdr 20
    let entrySize := dbFile.block0.data.toBytes.length + 8
    let dbFile' :=
      if ((iOffset : Int) - sectorSize).tmod entrySize = 0 then
        let entryIndex := ((iOffset : Int) - sectorSize).tdiv entrySize
        let pageIndex := (getU32 buf 0 : Int) - 1
        if 0 ≤ entryIndex then
          { dbFile with journalPages := setSparse dbFile.journalPages entryIndex.toNat pageIndex }
        else
          -- a negative JS array index stores a plain property that the
          -- iteration and element reads of journalPages never observe
          dbFile
      else dbFile
    ⟨{ file with block0 := { file.block0 with
        fileSize := max file.block0.fileSize (iOffset + buf.length) } },
      dbFile', SQLITE_OK⟩

/-! ### Truncate, sync, purge, lock, close -/

/-- Result of `xTruncate`. -/
structure TruncateOutcome where
  file : OpenedFileEntry
  store : List FileBlock
  status : Int
deriving DecidableEq

/-- `xTruncate`: set the cached `fileSize`, put the updated block 0, and
range-delete the blocks past the new last block index. -/
def xTruncate (file : OpenedFileEntry) (store : List FileBlock) (iSize : Nat) :
    TruncateOutcome :=
  let b0 := { file.block0 with fileSize := iSize }
  let file' := { file with block0 := b0 }
  let lastBlockIndex := iSize / b0.data.toBytes.length
  let store1 := kvsPut store b0
  let store2 := kvsDeleteRange store1
    [.str file.path, .num (.int lastBlockIndex), .num .inf]
    [.str file.path, .num .inf, .num .inf] false false
  ⟨file', store2, SQLITE_OK⟩

/-- Result of `xSync`: the store after the transaction and whether the
explicit KVS `sync()` was awaited. -/
structure SyncOutcome where
  store : List FileBlock
  awaitedSync : Bool
  status : Int
deriving DecidableEq

/-- JS `Map.prototype.set` on the purge map. -/
def purgeMapSet (m : List (Int × Int)) (k v : Int) : List (Int × Int) :=
  if m.any (fun p => decide (p.1 = k)) then
    m.map (fun p => if p.1 = k then (k, v) else p)
  else m ++ [(k, v)]

/-- JS `Map.prototype.get` on the purge map. -/
def purgeMapGet (m : List (Int × Int)) (k : Int) : Option Int :=
  (m.find? (fun p => decide (p.1 = k))).map (fun p => p.2)

/-- The purge record key `[path, "purge", 0]`. -/
def purgeKey (path : String) : List KComp :=
  [.str path, .str "purge", .num (.int 0)]

/-- `xSync`.  For a non-journal file: put the cached block 0; if
`changedPages` is set, read or create the purge record, map every page
index that occurs in `journalPages` and in `changedPages` to the current
block-0 version, and put the record back; finally await the KVS sync
unless durability is "relaxed".  (The `#maybePurge` scheduling hook has no
effect on the store and is not modelled.) -/
def xSync (durability : String) (file : OpenedFileEntry) (store : List FileBlock) :
    SyncOutcome :=
  if isJournal file then ⟨store, false, SQLITE_OK⟩
  else
    let store1 := kvsPut store file.block0
    let store2 :=
      match file.changedPages with
      | none => store1
      | some changed =>
        let purgeBlock := (kvsGetKey store1 (purgeKey file.path)).getD
          ⟨file.path, .str "purge", 0, .purgeMap [], 0⟩
        let newMap := file.journalPages.foldl (fun m pi =>
          match pi with
          | some p => if p ∈ changed then purgeMapSet m p file.block0.version else m
          | none => m) purgeBlock.data.toPurgeMap
        kvsPut store1 { purgeBlock with data := .purgeMap newMap }
    ⟨store2, decide (durability ≠ "relaxed"), SQLITE_OK⟩

/-- `purge(name)` on an already-parsed path: delete, for every
`(pageIndex, version)` entry of the purge record, the blocks of that page
with a strictly larger (older) version, then delete the purge record. -/
def purge (path : String) (store : List FileBlock) : List FileBlock :=
  match kvsGetKey store (purgeKey path) with
  | none => store
  | some purgeBlock =>
    let store1 := purgeBlock.data.toPurgeMap.foldl (fun s pv =>
      kvsDeleteRange s [.str path, .num (.int pv.1), .num (.int pv.2)]
        [.str path, .num (.int pv.1), .num .inf] true false) store
    kvsDeleteKey store1 (purgeKey path)

/-- The KVS effect of `xLock` (the acquired host lock itself is outside
the store).  Only a request for exactly `SQLITE_LOCK_RESERVED` sweeps: it
deletes every record whose `(name, version)` index key lies in
`[[dbPath], [dbPath, dbFile.block0.version])`.  `pathToFile` is
`#mapPathToFile`; `none` models the JS throw when the database file is
not open. -/
def xLock (pathToFile : String → Option OpenedFileEntry) (file : OpenedFileEntry)
    (flags : Int) (store : List FileBlock) : Option (List FileBlock) :=
  if flags = SQLITE_LOCK_RESERVED then
    let dbPath := journalDatabasePath file.path
    match pathToFile dbPath with
    | none => none
    | some dbFile =>
      some (store.filter (fun r =>
        !(inRange [.str dbPath] [.str dbPath, .num (.int dbFile.block0.version)]
          false true [.str r.name, .num (.int r.version)])))
  else some store

/-- In-memory maps and the store, for `xClose`. -/
structure VfsState where
  mapIdToFile : List (Nat × OpenedFileEntry)
  mapPathToFile : List (String × OpenedFileEntry)
  store : List FileBlock
deriving DecidableEq

def mapLookup {α β : Type} [DecidableEq α] (m : List (α × β)) (k : α) : Option β :=
  (m.find? (fun p => decide (p.1 = k))).map (fun p => p.2)

def mapDelete {α β : Type} [DecidableEq α] (m : List (α × β)) (k : α) : List (α × β) :=
  m.filter (fun p => !(decide (p.1 = k)))

/-- `xClose`: drop the in-memory state of the file if it is open and,
when DELETEONCLOSE was set, range-delete all of its records. -/
def xClose (s : VfsState) (fileId : Nat) : VfsState × Int :=
  match mapLookup s.mapIdToFile fileId with
  | none => (s, SQLITE_OK)
  | some file =>
    let m1 := mapDelete s.mapIdToFile fileId
    let m2 := mapDelete s.mapPathToFile file.path
    let store' :=
      if file.flags &&& SQLITE_OPEN_DELETEONCLOSE ≠ 0 then
        kvsDeleteRange s.store [.str file.path] [.str file.path, .emptyArr] false false
      else s.store
    (⟨m1, m2, store'⟩, SQLITE_OK)

/-! ### Order and store lemmas -/

theorem charLtb_irrefl (a : Char) : charLtb a a = false := by
  simp [charLtb]

theorem strLtbAux_irrefl : ∀ l : List Char, strLtbAux l l = false
  | [] => rfl
  | a :: as => by simp [strLtbAux, charLtb, strLtbAux_irrefl as]

theorem strLtbAux_asymm : ∀ l1 l2 : List Char,
    strLtbAux l1 l2 = true → strLtbAux l2 l1 = false := by
  intro l1
  induction l1 with
  | nil =>
    intro l2 h
    cases l2 with
    | nil => simp [strLtbAux] at h
    | cons b bs => simp [strLtbAux]
  | cons a as ih =>
    intro l2 h
    cases l2 with
    | nil => simp [strLtbAux] at h
    | cons b bs =>
      simp only [strLtbAux, charLtb, Bool.or_eq_true, Bool.and_eq_true,
        decide_eq_true_eq] at h ⊢
      simp only [Bool.or_eq_false_iff, Bool.and_eq_false_iff, decide_eq_false_iff_not]
      rcases h with h | ⟨hab, h⟩
      · exact ⟨by omega, Or.inl fun hba => by subst hba; omega⟩
      · subst hab
        exact ⟨by omega, Or.inr (ih bs h)⟩

theorem strLtb_irrefl (s : String) : strLtb s s = false :=
  strLtbAux_irrefl s.data

theorem strLtb_asymm {a b : String} (h : strLtb a b = true) : strLtb b a = false :=
  strLtbAux_asymm a.data b.data h

theorem mem_kvsDeleteRange {store : List FileBlock} {lo hi : List KComp}
    {o1 o2 : Bool} {r : FileBlock} :
    r ∈ kvsDeleteRange store lo hi o1 o2 ↔
      r ∈ store ∧ inRange lo hi o1 o2 (recordKey r) = false := by
  simp [kvsDeleteRange, List.mem_filter]

theorem mem_kvsDeleteKey {store : List FileBlock} {k : List KComp} {r : FileBlock} :
    r ∈ kvsDeleteKey store k ↔ r ∈ store ∧ recordKey r ≠ k := by
  simp [kvsDeleteKey, List.mem_filter]

theorem mem_kvsPut {store : List FileBlock} {x r : FileBlock} :
    x ∈ kvsPut store r ↔ x = r ∨ (x ∈ store ∧ recordKey x ≠ recordKey r) := by
  simp [kvsPut, List.mem_filter]

theorem kvsGetRange_go {lo hi : List KComp} {o1 o2 : Bool} :
    ∀ (l : List FileBlock) (acc : Option FileBlock) (r : FileBlock),
      l.foldl (fun best x =>
        if inRange lo hi o1 o2 (recordKey x) then
          match best with
          | none => some x
          | some b => if keyLt (recordKey x) (recordKey b) then some x else some b
        else best) acc = some r →
      acc = some r ∨ (r ∈ l ∧ inRange lo hi o1 o2 (recordKey r) = true) := by
  intro l
  induction l with
  | nil => intro acc r h; exact Or.inl h
  | cons x l ih =>
    intro acc r h
    simp only [List.foldl_cons] at h
    rcases ih _ r h with hacc | ⟨hmem, hin⟩
    · by_cases hx : inRange lo hi o1 o2 (recordKey x) = true
      · simp only [hx, if_true] at hacc
        cases acc with
        | none =>
          simp only at hacc
          cases hacc
          exact Or.inr ⟨List.mem_cons_self x l, hx⟩
        | some b =>
          simp only at hacc
          by_cases hk : keyLt (recordKey x) (recordKey b) = true
          · simp only [hk, if_true] at hacc
            cases hacc
            exact Or.inr ⟨List.mem_cons_self x l, hx⟩
          · simp only [Bool.not_eq_true] at hk
            simp only [hk] at hacc
            exact Or.inl hacc
      · simp only [Bool.not_eq_true] at hx
        simp only [hx] at hacc
        exact Or.inl hacc
    · exact Or.inr ⟨List.mem_cons_of_mem x hmem, hin⟩

theorem kvsGetRange_mem {store : List FileBlock} {lo hi : List KComp}
    {o1 o2 : Bool} {r : FileBlock} (h : kvsGetRange store lo hi o1 o2 = some r) :
    r ∈ store ∧ inRange lo hi o1 o2 (recordKey r) = true := by
  rcases kvsGetRange_go store none r h with hacc | hgood
  · cases hacc
  · exact hgood

theorem find?_filter_of_imp {p q : FileBlock → Bool} (s : List FileBlock)
    (himp : ∀ x, p x = true → q x = true) :
    List.find? p (s.filter q) = List.find? p s := by
  induction s with
  | nil => rfl
  | cons x s ih =>
    by_cases hq : q x = true
    · rw [List.filter_cons_of_pos hq]
      by_cases hp : p x = true
      · rw [List.find?_cons_of_pos _ hp, List.find?_cons_of_pos _ hp]
      · simp only [Bool.not_eq_true] at hp
        rw [List.find?_cons_of_neg _ (by simp [hp]), List.find?_cons_of_neg _ (by simp [hp]), ih]
    · simp only [Bool.not_eq_true] at hq
      rw [List.filter_cons_of_neg (by simp [hq])]
      have hp : p x = false := by
        by_contra hc
        simp only [Bool.not_eq_false] at hc
        rw [himp x hc] at hq
        cases hq
      rw [List.find?_cons_of_neg _ (by simp [hp]), ih]

theorem kvsGetKey_put_self (s : List FileBlock) (r : FileBlock) :
    kvsGetKey (kvsPut s r) (recordKey r) = some r := by
  simp [kvsGetKey, kvsPut, List.find?_cons_of_pos]

theorem kvsGetKey_put_ne (s : List FileBlock) (r : FileBlock) (k : List KComp)
    (h : k ≠ recordKey r) : kvsGetKey (kvsPut s r) k = kvsGetKey s k := by
  unfold kvsGetKey kvsPut
  rw [List.find?_cons_of_neg _ (by simpa using fun he : recordKey r = k => h he.symm)]
  exact find?_filter_of_imp s fun x hx => by
    simp only [decide_eq_true_eq] at hx
    simp [hx, h]

theorem getD_append_lt (l1 l2 : List Nat) (n d : Nat) (h : n < l1.length) :
    (l1 ++ l2).getD n d = l1.getD n d := by
  induction l1 generalizing n with
  | nil => simp at h
  | cons a l ih =>
    cases n with
    | zero => rfl
    | succ m =>
      simp only [List.cons_append, List.getD_cons_succ]
      exact ih m (by simpa using h)

theorem getD_append_ge (l1 l2 : List Nat) (n d : Nat) (h : l1.length ≤ n) :
    (l1 ++ l2).getD n d = l2.getD (n - l1.length) d := by
  induction l1 generalizing n with
  | nil => simp
  | cons a l ih =>
    cases n with
    | zero => simp at h
    | succ m =>
      simp only [List.cons_append, List.getD_cons_succ, List.length_cons]
      rw [ih m (by simpa using h)]
      congr 1
      omega

theorem jsSetAt_length (dst src : List Nat) (off : Nat) (h : off ≤ dst.length) :
    (jsSetAt dst src off).length = dst.length := by
  simp only [jsSetAt, List.length_append, List.length_take, List.length_drop]
  omega

theorem encodeU32_length (v : Nat) : (encodeU32 v).length = 4 := rfl

theorem setU32_length (bs : List Nat) (off v : Nat) (h : off ≤ bs.length) :
    (setU32 bs off v).length = bs.length :=
  jsSetAt_length bs (encodeU32 (v % 2 ^ 32)) off h

theorem getU32_setU32 (bs : List Nat) (off v : Nat) (h : off + 4 ≤ bs.length) :
    getU32 (setU32 bs off v) off = v % 2 ^ 32 := by
  unfold setU32 jsSetAt
  have htk : (encodeU32 (v % 2 ^ 32)).take (bs.length - off) = encodeU32 (v % 2 ^ 32) := by
    apply List.take_of_length_le
    rw [encodeU32_length]
    omega
  rw [htk]
  have hto : (bs.take off).length = off := by
    rw [List.length_take]
    omega
  unfold getU32 encodeU32
  rw [List.append_assoc]
  rw [getD_append_ge _ _ off _ (by omega), getD_append_ge _ _ (off + 1) _ (by omega),
    getD_append_ge _ _ (off + 2) _ (by omega), getD_append_ge _ _ (off + 3) _ (by omega)]
  rw [hto]
  have h0 : off - off = 0 := by omega
  have h1 : off + 1 - off = 1 := by omega
  have h2 : off + 2 - off = 2 := by omega
  have h3 : off + 3 - off = 3 := by omega
  rw [h0, h1, h2, h3]
  simp only [List.cons_append, List.getD_cons_zero, List.getD_cons_succ]
  have hlt : v % 2 ^ 32 < 2 ^ 32 := Nat.mod_lt _ (by norm_num)
  omega

/-- The sweep range of the RESERVED-lock cleanup: the `(name, version)`
index key of a record lies in `[[p], [p, V])` exactly when the record
belongs to `p` and has a version strictly below (newer than) `V`. -/
theorem inRange_versionIndex (p n : String) (V v : Int) :
    inRange [.str p] [.str p, .num (.int V)] false true [.str n, .num (.int v)] = true ↔
      (n = p ∧ v < V) := by
  by_cases hnp : n = p
  · subst hnp
    simp [inRange, keyLe, keyLt, KComp.ltb, JsNum.ltb, strLtb_irrefl]
  · have hpn : ¬ p = n := fun h => hnp h.symm
    simp [inRange, keyLe, keyLt, KComp.ltb, JsNum.ltb, hnp, hpn]
    intro h
    exact strLtb_asymm h

/-- The delete range of `xTruncate`: a record key
`[n, idx, v]` lies in `[[p, last, Infinity], [p, Infinity, Infinity]]`
exactly when it belongs to `p` and has a numeric index above `last`
(`Infinity` itself included).  In particular the purge record (string
index) and block `last` and below survive. -/
theorem inRange_truncate (p : String) (last : Nat) (n : String) (idx : KComp) (v : Int) :
    inRange [.str p, .num (.int last), .num .inf] [.str p, .num .inf, .num .inf]
        false false [.str n, idx, .num (.int v)] = true ↔
      (n = p ∧ ((∃ i : Int, idx = .num (.int i) ∧ (last : Int) < i) ∨ idx = .num .inf)) := by
  by_cases hnp : n = p
  · subst hnp
    cases idx with
    | num jn =>
      cases jn with
      | int i => simp [inRange, keyLe, keyLt, KComp.ltb, JsNum.ltb, strLtb_irrefl]
      | inf => simp [inRange, keyLe, keyLt, KComp.ltb, JsNum.ltb, strLtb_irrefl]
    | str s => simp [inRange, keyLe, keyLt, KComp.ltb, JsNum.ltb, strLtb_irrefl]
    | emptyArr => simp [inRange, keyLe, keyLt, KComp.ltb, JsNum.ltb, strLtb_irrefl]
  · have hpn : ¬ p = n := fun h => hnp h.symm
    cases idx with
    | num jn =>
      cases jn with
      | int i =>
        simp [inRange, keyLe, keyLt, KComp.ltb, JsNum.ltb, hnp, hpn]
        intro h
        exact strLtb_asymm h
      | inf =>
        simp [inRange, keyLe, keyLt, KComp.ltb, JsNum.ltb, hnp, hpn]
        intro h
        exact strLtb_asymm h
    | str s =>
      simp [inRange, keyLe, keyLt, KComp.ltb, JsNum.ltb, hnp, hpn]
      intro h
      exact strLtb_asymm h
    | emptyArr =>
      simp [inRange, keyLe, keyLt, KComp.ltb, JsNum.ltb, hnp, hpn]
      intro h
      exact strLtb_asymm h

/-- The per-page delete range used by `purge` (and the fetch range of
`#xReadJournal`, whose lower bound is open): a key `[n, idx, v]` lies in
`([p, pi, V], [p, pi, Infinity]]` exactly when it belongs to `p`, at
numeric index `pi`, with version strictly greater (older) than `V`. -/
theorem inRange_pageVersions (p : String) (pi V : Int) (n : String) (idx : KComp) (v : Int) :
    inRange [.str p, .num (.int pi), .num (.int V)] [.str p, .num (.int pi), .num .inf]
        true false [.str n, idx, .num (.int v)] = true ↔
      (n = p ∧ idx = .num (.int pi) ∧ V < v) := by
  by_cases hnp : n = p
  · subst hnp
    cases idx with
    | num jn =>
      cases jn with
      | int i =>
        simp [inRange, keyLe, keyLt, KComp.ltb, JsNum.ltb, strLtb_irrefl]
        omega
      | inf => simp [inRange, keyLe, keyLt, KComp.ltb, JsNum.ltb, strLtb_irrefl]
    | str s => simp [inRange, keyLe, keyLt, KComp.ltb, JsNum.ltb, strLtb_irrefl]
    | emptyArr => simp [inRange, keyLe, keyLt, KComp.ltb, JsNum.ltb, strLtb_irrefl]
  · have hpn : ¬ p = n := fun h => hnp h.symm
    cases idx with
    | num jn =>
      cases jn with
      | int i =>
        simp [inRange, keyLe, keyLt, KComp.ltb, JsNum.ltb, hnp, hpn]
        intro h
        exact strLtb_asymm h
      | inf =>
        simp [inRange, keyLe, keyLt, KComp.ltb, JsNum.ltb, hnp, hpn]
        intro h
        exact strLtb_asymm h
    | str s =>
      simp [inRange, keyLe, keyLt, KComp.ltb, JsNum.ltb, hnp, hpn]
      intro h
      exact strLtb_asymm h
    | emptyArr =>
      simp [inRange, keyLe, keyLt, KComp.ltb, JsNum.ltb, hnp, hpn]
      intro h
      exact strLtb_asymm h

theorem checksumAux_eq_spec (data : List Nat) :
    ∀ (fuel : Nat) (x : Int), x ≤ 200 * fuel →
      ∀ acc, checksumAux data fuel x acc = acc + specPositionSum data x := by
  intro fuel
  induction fuel with
  | zero =>
    intro x hx acc
    rw [specPositionSum]
    have hnx : ¬ (0 : Int) < x := by omega
    simp [checksumAux, hnx]
  | succ n ih =>
    intro x hx acc
    rw [specPositionSum]
    by_cases h0 : (0 : Int) < x
    · rw [if_pos h0]
      simp only [checksumAux]
      rw [if_pos h0, ih (x - 200) (by omega)]
      omega
    · simp [checksumAux, h0]

theorem find?_map_invariant {α : Type} (f : α → α) (pred : α → Bool) (m : List α)
    (h1 : ∀ q, pred (f q) = pred q) (h2 : ∀ q, pred q = true → f q = q) :
    List.find? pred (m.map f) = List.find? pred m := by
  induction m with
  | nil => rfl
  | cons q m ih =>
    by_cases hq : pred q = true
    · rw [List.map_cons, List.find?_cons_of_pos _ ((h1 q).trans hq),
        List.find?_cons_of_pos _ hq, h2 q hq]
    · simp only [Bool.not_eq_true] at hq
      rw [List.map_cons, List.find?_cons_of_neg _ (by simp [h1, hq]),
        List.find?_cons_of_neg _ (by simp [hq]), ih]

theorem find?_append_of_head {α : Type} (pred : α → Bool) (l1 l2 : List α)
    (h : ∀ x ∈ l2, pred x = false) :
    List.find? pred (l1 ++ l2) = List.find? pred l1 := by
  induction l1 with
  | nil =>
    rw [List.nil_append, List.find?_nil]
    rw [List.find?_eq_none]
    intro x hx
    simp [h x hx]
  | cons q l1 ih =>
    by_cases hq : pred q = true
    · rw [List.cons_append, List.find?_cons_of_pos _ hq, List.find?_cons_of_pos _ hq]
    · simp only [Bool.not_eq_true] at hq
      rw [List.cons_append, List.find?_cons_of_neg _ (by simp [hq]),
        List.find?_cons_of_neg _ (by simp [hq]), ih]

theorem find?_append_of_none {α : Type} (pred : α → Bool) (l1 l2 : List α)
    (h : List.find? pred l1 = none) :
    List.find? pred (l1 ++ l2) = List.find? pred l2 := by
  induction l1 with
  | nil => rfl
  | cons q l1 ih =>
    by_cases hq : pred q = true
    · rw [List.find?_cons_of_pos _ hq] at h
      cases h
    · simp only [Bool.not_eq_true] at hq
      rw [List.find?_cons_of_neg _ (by simp [hq])] at h
      rw [List.cons_append, List.find?_cons_of_neg _ (by simp [hq]), ih h]

theorem purgeMapGet_set_self (m : List (Int × Int)) (k v : Int) :
    purgeMapGet (purgeMapSet m k v) k = some v := by
  induction m with
  | nil => simp [purgeMapSet, purgeMapGet]
  | cons p m ih =>
    unfold purgeMapSet
    by_cases hp : p.1 = k
    · rw [if_pos (by simp [hp])]
      simp only [List.map_cons]
      rw [show (if p.1 = k then (k, v) else p) = (k, v) from by simp [hp]]
      unfold purgeMapGet
      rw [List.find?_cons_of_pos _ (by simp)]
      rfl
    · by_cases hany2 : m.any (fun q => decide (q.1 = k)) = true
      · rw [if_pos (by simp [List.any_cons, hany2])]
        simp only [List.map_cons]
        rw [show (if p.1 = k then (k, v) else p) = p from by simp [hp]]
        unfold purgeMapGet
        rw [List.find?_cons_of_neg _ (by simp [hp])]
        have hih := ih
        unfold purgeMapSet purgeMapGet at hih
        rw [if_pos hany2] at hih
        exact hih
      · rw [if_neg (by simp [List.any_cons, hp, hany2])]
        unfold purgeMapGet
        rw [List.cons_append, List.find?_cons_of_neg _ (by simp [hp])]
        have hih := ih
        unfold purgeMapSet purgeMapGet at hih
        rw [if_neg hany2] at hih
        exact hih

theorem purgeMapGet_set_other (m : List (Int × Int)) (k k' v : Int) (h : k' ≠ k) :
    purgeMapGet (purgeMapSet m k v) k' = purgeMapGet m k' := by
  unfold purgeMapSet purgeMapGet
  by_cases hany : m.any (fun p => decide (p.1 = k)) = true
  · rw [if_pos hany, find?_map_invariant]
    · intro q
      by_cases hq : q.1 = k
      · simp [hq]
      · simp [hq]
    · intro q hq
      simp only [decide_eq_true_eq] at hq
      have hqk : ¬ q.1 = k := by
        rw [hq]
        exact h
      simp [hqk]
  · rw [if_neg hany, find?_append_of_head]
    intro x hx
    simp only [List.mem_singleton] at hx
    subst hx
    simp only [decide_eq_false_iff_not]
    exact fun he => h he.symm

/-- The purge-record update loop of `xSync` preserves an entry mapping to
the written version. -/
theorem syncFold_preserve (changed : List Int) (V : Int) :
    ∀ (l : List (Option Int)) (m : List (Int × Int)) (k : Int),
      purgeMapGet m k = some V →
      purgeMapGet (l.foldl (fun m pi =>
        match pi with
        | some p => if p ∈ changed then purgeMapSet m p V else m
        | none => m) m) k = some V := by
  intro l
  induction l with
  | nil => intro m k h; exact h
  | cons a l ih =>
    intro m k h
    rw [List.foldl_cons]
    cases a with
    | none => exact ih m k h
    | some p =>
      by_cases hp : p ∈ changed
      · simp only [if_pos hp]
        by_cases hpk : p = k
        · exact ih _ k (by rw [hpk]; exact purgeMapGet_set_self m k V)
        · exact ih _ k (by rw [purgeMapGet_set_other m p k V (fun he => hpk he.symm)]; exact h)
      · simp only [if_neg hp]
        exact ih m k h

/-- The purge-record update loop of `xSync` maps every index occurring in
`journalPages` and in `changedPages` to the written version. -/
theorem syncFold_establish (changed : List Int) (V : Int) :
    ∀ (l : List (Option Int)) (m : List (Int × Int)) (k : Int),
      some k ∈ l → k ∈ changed →
      purgeMapGet (l.foldl (fun m pi =>
        match pi with
        | some p => if p ∈ changed then purgeMapSet m p V else m
        | none => m) m) k = some V := by
  intro l
  induction l with
  | nil => intro m k h; cases h
  | cons a l ih =>
    intro m k hmem hk
    rw [List.foldl_cons]
    rcases List.mem_cons.mp hmem with rfl | hmem'
    · simp only [if_pos hk]
      by_cases hl : some k ∈ l
      · exact ih _ k hl hk
      · exact syncFold_preserve changed V l _ k (purgeMapGet_set_self m k V)
    · cases a with
      | none => exact ih m k hmem' hk
      | some p =>
        by_cases hp : p ∈ changed
        · simp only [if_pos hp]
          exact ih _ k hmem' hk
        · simp only [if_neg hp]
          exact ih m k hmem' hk

/-- Records surviving the per-page delete loop of `purge` were in the
initial store and lie in none of the deleted ranges. -/
theorem mem_purgeFold {path : String} :
    ∀ (l : List (Int × Int)) (s : List FileBlock) (r : FileBlock),
      r ∈ l.foldl (fun s pv =>
        kvsDeleteRange s [.str path, .num (.int pv.1), .num (.int pv.2)]
          [.str path, .num (.int pv.1), .num .inf] true false) s →
      r ∈ s ∧ ∀ pv ∈ l,
        inRange [.str path, .num (.int pv.1), .num (.int pv.2)]
          [.str path, .num (.int pv.1), .num .inf] true false (recordKey r) = false := by
  intro l
  induction l with
  | nil =>
    intro s r h
    exact ⟨h, by intro pv hpv; cases hpv⟩
  | cons a l ih =>
    intro s r h
    rw [List.foldl_cons] at h
    rcases ih _ r h with ⟨hmem, hrest⟩
    rcases mem_kvsDeleteRange.mp hmem with ⟨hs, hnot⟩
    refine ⟨hs, ?_⟩
    intro pv hpv
    rcases List.mem_cons.mp hpv with rfl | hpv'
    · exact hnot
    · exact hrest pv hpv'

theorem mapLookup_mapDelete {α β : Type} [DecidableEq α] (m : List (α × β)) (k : α) :
    mapLookup (mapDelete m k) k = none := by
  unfold mapLookup mapDelete
  rw [List.find?_eq_none.mpr]
  · rfl
  · intro x hx
    rcases List.mem_filter.mp hx with ⟨_, hpred⟩
    simp only [Bool.not_eq_true', decide_eq_false_iff_not] at hpred
    simp [hpred]

/-- The slow-path test of `xWrite`, restated arithmetically: the
read-modify-write path runs exactly for misaligned writes and for
non-block-sized writes starting inside the current file. -/
theorem xWriteDispatch_iff (blockSize fileSize iOffset size : Nat) :
    xWriteDispatch blockSize fileSize iOffset size = true ↔
      (iOffset % blockSize ≠ 0 ∨ (iOffset < fileSize ∧ size ≠ blockSize)) := by
  unfold xWriteDispatch
  simp only [Bool.or_eq_true, Bool.and_eq_true, decide_eq_true_eq]
  have e : blockSize * (iOffset / blockSize) + iOffset % blockSize = iOffset :=
    Nat.div_add_mod iOffset blockSize
  rw [Nat.mul_comm] at e
  generalize iOffset / blockSize * blockSize = t at e ⊢
  generalize iOffset % blockSize = r at e ⊢
  omega

/-! ### Claim theorems -/

/-- C5 counterexample: the claim says every multi-block write is
dispatched to the slow path and only aligned full-block single-block
writes take the fast path; but an aligned write of two whole blocks
starting at the end of an empty file (blockSize 8, fileSize 0, offset 0,
size 16) fails the slow-path test of `xWrite` although it spans blocks 0
and 1 and is not a single full block. -/
theorem claim_C5_counterexample :
    xWriteDispatch 8 0 0 16 = false ∧ 0 + 16 > (0 / 8 + 1) * 8 ∧ (16 : Nat) ≠ 8 := by
  decide

/-- C5 (amended): a write to a database file is dispatched to the
read-modify-write slow path exactly when it is misaligned, or when it
starts inside the current file and its length differs from the block
size; aligned writes starting at or past `fileSize` take the fast path
whatever their length.  When the slow-path test holds, `xWrite` runs
`#xWriteGeneral`. -/
theorem claim_C5_dispatch (file : OpenedFileEntry) (store : List FileBlock)
    (buf : List Nat) (iOffset : Nat) :
    (xWriteDispatch file.block0.data.toBytes.length file.block0.fileSize iOffset
        buf.length = true ↔
      (iOffset % file.block0.data.toBytes.length ≠ 0 ∨
        (iOffset < file.block0.fileSize ∧ buf.length ≠ file.block0.data.toBytes.length))) ∧
    (xWriteDispatch file.block0.data.toBytes.length file.block0.fileSize iOffset
        buf.length = true →
      xWriteDb file store buf iOffset = xWriteGeneral file store buf iOffset) := by
  constructor
  · exact xWriteDispatch_iff _ _ _ _
  · intro h
    unfold xWriteDb
    rw [if_pos h]

theorem claim_C5_dispatch_witness :
    (xWriteDispatch 8 0 3 4 = true ↔ (3 % 8 ≠ 0 ∨ (3 < 0 ∧ 4 ≠ 8))) ∧
    (xWriteDispatch 8 0 3 4 = true →
      xWriteDb ⟨"/db", 0, ⟨"/db", .num (.int 0), 0, .bytes (List.replicate 8 0), 0⟩,
          [], none, none, none⟩ [] [9, 9, 9, 9] 3 =
        xWriteGeneral ⟨"/db", 0, ⟨"/db", .num (.int 0), 0, .bytes (List.replicate 8 0), 0⟩,
          [], none, none, none⟩ [] [9, 9, 9, 9] 3) :=
  claim_C5_dispatch
    ⟨"/db", 0, ⟨"/db", .num (.int 0), 0, .bytes (List.replicate 8 0), 0⟩, [], none, none, none⟩
    [] [9, 9, 9, 9] 3

/-- C7: the checksum stored in the last four bytes of a reconstructed
journal page entry (built by `#xReadJournal` with `entrySize = pageSize +
8`) equals the low 32 bits of the nonce plus the sum of the page bytes at
positions `pageSize - 200, pageSize - 400, ...` for as long as the
position stays strictly greater than 0. -/
theorem claim_C7_checksum (pageIndex : Int) (blockBytes : List Nat) (nonce pageSize : Nat) :
    getU32 (buildPageEntry pageIndex blockBytes nonce pageSize (pageSize + 8))
        (pageSize + 4) =
      (nonce + specPositionSum blockBytes ((pageSize : Int) - 200)) % 2 ^ 32 := by
  unfold buildPageEntry
  have hlen2 : (setU32 (List.replicate (pageSize + 8) 0) 0
      ((pageIndex + 1).emod (2 ^ 32)).toNat).length = pageSize + 8 := by
    rw [setU32_length _ _ _ (by simp)]
    simp
  have hlen3 : (jsSetAt (setU32 (List.replicate (pageSize + 8) 0) 0
      ((pageIndex + 1).emod (2 ^ 32)).toNat) blockBytes 4).length = pageSize + 8 := by
    rw [jsSetAt_length _ _ _ (by rw [hlen2]; omega), hlen2]
  rw [show pageSize + 8 - 4 = pageSize + 4 from by omega]
  rw [getU32_setU32 _ _ _ (by rw [hlen3])]
  unfold checksum
  rw [checksumAux_eq_spec blockBytes pageSize ((pageSize : Int) - 200) (by omega) nonce]

/-- C10: closing a fileId with no opened-file entry returns OK and
changes nothing, and a second close of the same fileId after any close is
always such a no-op. -/
theorem claim_C10_close (s : VfsState) (fileId : Nat) :
    (mapLookup s.mapIdToFile fileId = none → xClose s fileId = (s, SQLITE_OK)) ∧
    xClose (xClose s fileId).1 fileId = ((xClose s fileId).1, SQLITE_OK) := by
  have h2 : ∀ t : VfsState, mapLookup t.mapIdToFile fileId = none →
      xClose t fileId = (t, SQLITE_OK) := by
    intro t ht
    unfold xClose
    rw [ht]
  refine ⟨h2 s, ?_⟩
  apply h2
  cases hl : mapLookup s.mapIdToFile fileId with
  | none =>
    rw [h2 s hl]
    exact hl
  | some file =>
    have hfst : (xClose s fileId).1.mapIdToFile = mapDelete s.mapIdToFile fileId := by
      unfold xClose
      rw [hl]
    rw [hfst]
    exact mapLookup_mapDelete _ _

theorem claim_C10_close_witness :
    (mapLookup (VfsState.mk [] [] []).mapIdToFile 7 = none →
      xClose ⟨[], [], []⟩ 7 = (⟨[], [], []⟩, SQLITE_OK)) ∧
    xClose (xClose ⟨[], [], []⟩ 7).1 7 = ((xClose ⟨[], [], []⟩ 7).1, SQLITE_OK) :=
  claim_C10_close ⟨[], [], []⟩ 7

/-- C2 counterexample: truncating to a size no smaller than the current
fileSize is claimed to be a no-op, but `xTruncate` of an empty file
(fileSize 0, blockSize 8) to size 16 sets the cached fileSize to 16 and
issues a KVS put of the updated block 0 (the store changes). -/
theorem claim_C2_counterexample :
    (16 : Nat) ≥ (⟨"/db", .num (.int 0), 0, .bytes (List.replicate 8 0), 0⟩ :
        FileBlock).fileSize ∧
    (xTruncate ⟨"/db", 0, ⟨"/db", .num (.int 0), 0, .bytes (List.replicate 8 0), 0⟩,
        [], none, none, none⟩
      [⟨"/db", .num (.int 0), 0, .bytes (List.replicate 8 0), 0⟩]
      16).file.block0.fileSize ≠ 0 ∧
    (xTruncate ⟨"/db", 0, ⟨"/db", .num (.int 0), 0, .bytes (List.replicate 8 0), 0⟩,
        [], none, none, none⟩
      [⟨"/db", .num (.int 0), 0, .bytes (List.replicate 8 0), 0⟩]
      16).store ≠ [⟨"/db", .num (.int 0), 0, .bytes (List.replicate 8 0), 0⟩] := by
  decide

theorem kvsGetKey_deleteRange_put_self (store : List FileBlock) (r : FileBlock)
    (lo hi : List KComp) (o1 o2 : Bool) (h : inRange lo hi o1 o2 (recordKey r) = false) :
    kvsGetKey (kvsDeleteRange (kvsPut store r) lo hi o1 o2) (recordKey r) = some r := by
  unfold kvsDeleteRange kvsPut kvsGetKey
  rw [List.filter_cons_of_pos (by rw [h]; rfl)]
  rw [List.find?_cons_of_pos _ (by simp)]

/-- C2 (amended): `xTruncate` is never a no-op.  For every size it sets
the cached fileSize to the requested size, puts the updated block 0 into
the KVS, and deletes exactly the records of the file with a numeric index
above `size / blockSize`: the resulting store contains precisely the
updated block 0 plus every prior record that is not block 0's key and not
in the deleted range — so the purge record and all data blocks at indices
up to `size / blockSize` survive — and the status is OK. -/
theorem claim_C2_truncate (file : OpenedFileEntry) (store : List FileBlock) (iSize : Nat)
    (hname : file.block0.name = file.path) (hidx : file.block0.index = .num (.int 0)) :
    (xTruncate file store iSize).file =
      { file with block0 := { file.block0 with fileSize := iSize } } ∧
    kvsGetKey (xTruncate file store iSize).store
        (recordKey { file.block0 with fileSize := iSize }) =
      some { file.block0 with fileSize := iSize } ∧
    (∀ r ∈ (xTruncate file store iSize).store, r.name = file.path →
      ∀ i : Int, r.index = .num (.int i) →
        i ≤ (iSize / file.block0.data.toBytes.length : Nat)) ∧
    (∀ r ∈ store, r.index = .str "purge" → r ∈ (xTruncate file store iSize).store) ∧
    (∀ r : FileBlock, r ∈ (xTruncate file store iSize).store ↔
      (r = { file.block0 with fileSize := iSize } ∨
        (r ∈ store ∧
          recordKey r ≠ recordKey { file.block0 with fileSize := iSize } ∧
          ¬(r.name = file.path ∧
            ((∃ i : Int, r.index = .num (.int i) ∧
                ((iSize / file.block0.data.toBytes.length : Nat) : Int) < i) ∨
              r.index = .num .inf))))) ∧
    (xTruncate file store iSize).status = SQLITE_OK := by
  have hstore : (xTruncate file store iSize).store =
      kvsDeleteRange (kvsPut store { file.block0 with fileSize := iSize })
        [.str file.path,
          .num (.int ((iSize / file.block0.data.toBytes.length : Nat) : Int)), .num .inf]
        [.str file.path, .num .inf, .num .inf] false false := rfl
  have hkey : recordKey { file.block0 with fileSize := iSize } =
      [.str file.path, .num (.int 0), .num (.int file.block0.version)] := by
    show [KComp.str file.block0.name, file.block0.index, .num (.int file.block0.version)] = _
    rw [hname, hidx]
  have hchar : ∀ r : FileBlock, inRange
      [.str file.path,
        .num (.int ((iSize / file.block0.data.toBytes.length : Nat) : Int)), .num .inf]
      [.str file.path, .num .inf, .num .inf] false false (recordKey r) = true ↔
      (r.name = file.path ∧
        ((∃ i : Int, r.index = .num (.int i) ∧
            ((iSize / file.block0.data.toBytes.length : Nat) : Int) < i) ∨
          r.index = .num .inf)) := by
    intro r
    rw [show recordKey r = [.str r.name, r.index, .num (.int r.version)] from rfl]
    exact inRange_truncate _ _ _ _ _
  have hb0false : inRange
      [.str file.path,
        .num (.int ((iSize / file.block0.data.toBytes.length : Nat) : Int)), .num .inf]
      [.str file.path, .num .inf, .num .inf] false false
      (recordKey { file.block0 with fileSize := iSize }) = false := by
    rw [hkey, Bool.eq_false_iff]
    intro hc
    rcases (inRange_truncate _ _ _ _ _).mp hc with ⟨_, ⟨i, hi, hlt⟩ | hinf⟩
    · cases hi
      exact absurd hlt (not_lt.mpr (Int.natCast_nonneg _))
    · cases hinf
  refine ⟨rfl, ?_, ?_, ?_, ?_, rfl⟩
  · rw [hstore]
    exact kvsGetKey_deleteRange_put_self _ _ _ _ _ _ hb0false
  · intro r hr hrname i hri
    rw [hstore] at hr
    rcases mem_kvsDeleteRange.mp hr with ⟨_, hnot⟩
    by_contra hgt
    have hin : inRange
        [.str file.path,
          .num (.int ((iSize / file.block0.data.toBytes.length : Nat) : Int)), .num .inf]
        [.str file.path, .num .inf, .num .inf] false false (recordKey r) = true :=
      (hchar r).mpr ⟨hrname, Or.inl ⟨i, hri, not_le.mp hgt⟩⟩
    rw [hin] at hnot
    cases hnot
  · intro r hr hpurge
    rw [hstore]
    apply mem_kvsDeleteRange.mpr
    constructor
    · apply mem_kvsPut.mpr
      refine Or.inr ⟨hr, ?_⟩
      rw [hkey, show recordKey r = [.str r.name, r.index, .num (.int r.version)] from rfl,
        hpurge]
      simp
    · rw [Bool.eq_false_iff]
      intro hc
      rcases (hchar r).mp hc with ⟨_, ⟨i, hi, _⟩ | hinf⟩
      · rw [hpurge] at hi
        cases hi
      · rw [hpurge] at hinf
        cases hinf
  · intro r
    rw [hstore, mem_kvsDeleteRange, mem_kvsPut]
    constructor
    · rintro ⟨hput, hfalse⟩
      have hnotpred : ¬(r.name = file.path ∧
          ((∃ i : Int, r.index = .num (.int i) ∧
              ((iSize / file.block0.data.toBytes.length : Nat) : Int) < i) ∨
            r.index = .num .inf)) := by
        intro hp
        rw [(hchar r).mpr hp] at hfalse
        cases hfalse
      rcases hput with rfl | ⟨hmem, hne⟩
      · exact Or.inl rfl
      · exact Or.inr ⟨hmem, hne, hnotpred⟩
    · rintro (rfl | ⟨hmem, hne, hnp⟩)
      · exact ⟨Or.inl rfl, hb0false⟩
      · refine ⟨Or.inr ⟨hmem, hne⟩, ?_⟩
        rw [Bool.eq_false_iff]
        intro hc
        exact hnp ((hchar r).mp hc)

theorem claim_C2_truncate_witness :
    ("/db" : String) = "/db" ∧ KComp.num (JsNum.int 0) = KComp.num (JsNum.int 0) ∧
    (xTruncate ⟨"/db", 0, ⟨"/db", .num (.int 0), 0, .bytes (List.replicate 8 0), 0⟩,
        [], none, none, none⟩ [] 16).file =
      ⟨"/db", 0, ⟨"/db", .num (.int 0), 0, .bytes (List.replicate 8 0), 16⟩,
        [], none, none, none⟩ :=
  ⟨rfl, rfl,
    (claim_C2_truncate
      ⟨"/db", 0, ⟨"/db", .num (.int 0), 0, .bytes (List.replicate 8 0), 0⟩,
        [], none, none, none⟩
      [] 16 rfl rfl).1⟩

/-- C3 is right about the intent and the code is wrong: on a short read
the caller's buffer tail must be zero-filled (the code's own comments say
"Zero unused area of read buffer"), but both fill calls pass the buffer
length as the fill start position and so fill nothing.  Reading 4 bytes
at offset 0 of an empty database file returns the short-read status and
leaves the stale buffer `[1,2,3,4]` untouched instead of zeroing it. -/
theorem claim_C3_bug :
    xRead [⟨"/db", .num (.int 0), 0, .bytes (List.replicate 8 0), 0⟩]
        ⟨"/db", 0, ⟨"/db", .num (.int 0), 0, .bytes (List.replicate 8 0), 0⟩,
          [], none, none, none⟩
        [1, 2, 3, 4] 0 =
      some ⟨⟨"/db", 0, ⟨"/db", .num (.int 0), 0, .bytes (List.replicate 8 0), 0⟩,
          [], none, none, none⟩,
        [1, 2, 3, 4], SQLITE_IOERR_SHORT_READ⟩ ∧
    [1, 2, 3, 4] ≠ List.replicate 4 (0 : Nat) := by
  decide

theorem getD_take_lt (l : List Nat) (n i d : Nat) (h : i < n) :
    (l.take n).getD i d = l.getD i d := by
  induction l generalizing n i with
  | nil => simp
  | cons a l ih =>
    cases n with
    | zero => omega
    | succ m =>
      cases i with
      | zero => rfl
      | succ j =>
        simp only [List.take_succ_cons, List.getD_cons_succ]
        exact ih m j (by omega)

/-- C9 counterexample: a read of length zero at offset 0 of an empty
database file is claimed to be a no-op returning OK, but the code first
checks `iOffset >= fileSize` and returns the short-read status. -/
theorem claim_C9_counterexample :
    xRead [⟨"/db", .num (.int 0), 0, .bytes (List.replicate 8 0), 0⟩]
        ⟨"/db", 0, ⟨"/db", .num (.int 0), 0, .bytes (List.replicate 8 0), 0⟩,
          [], none, none, none⟩
        [] 0 =
      some ⟨⟨"/db", 0, ⟨"/db", .num (.int 0), 0, .bytes (List.replicate 8 0), 0⟩,
          [], none, none, none⟩,
        [], SQLITE_IOERR_SHORT_READ⟩ ∧
    SQLITE_IOERR_SHORT_READ ≠ SQLITE_OK := by
  decide

/-- C9 (amended): on a database file, a zero-length read returns OK (and
changes neither the buffer nor `journalPages`/`changedPages`) only when
`iOffset < fileSize`; at or past `fileSize` it returns the short-read
status.  A zero-length write is a complete no-op — same entry, same
store, status OK — when `iOffset ≤ fileSize` and the slow path is taken
(misaligned offset, or strictly inside the file); an aligned zero-length
write at or past `fileSize` is not covered because it takes the fast path
and mutates state. -/
theorem claim_C9_zero_length (store : List FileBlock) (file : OpenedFileEntry)
    (iOffset : Nat) (hbs : file.block0.data.toBytes.length ≠ 0) :
    (iOffset ≥ file.block0.fileSize →
      xRead store file [] iOffset = some ⟨file, [], SQLITE_IOERR_SHORT_READ⟩) ∧
    (iOffset < file.block0.fileSize →
      ∀ b, kvsGetRange store
          [.str file.path,
            .num (.int ((iOffset / file.block0.data.toBytes.length : Nat) : Int)),
            .num (.int file.block0.version)]
          [.str file.path,
            .num (.int ((iOffset / file.block0.data.toBytes.length : Nat) : Int)),
            .num .inf] false false = some b →
        ∃ file', xRead store file [] iOffset = some ⟨file', [], SQLITE_OK⟩ ∧
          file'.journalPages = file.journalPages ∧
          file'.changedPages = file.changedPages) ∧
    (iOffset ≤ file.block0.fileSize →
      (iOffset % file.block0.data.toBytes.length ≠ 0 ∨ iOffset < file.block0.fileSize) →
      xWriteDb file store [] iOffset = some ⟨file, store, SQLITE_OK⟩) := by
  have hnotgen : ¬ (iOffset + ([] : List Nat).length >
      (iOffset / file.block0.data.toBytes.length + 1) * file.block0.data.toBytes.length) := by
    have e := Nat.div_add_mod iOffset file.block0.data.toBytes.length
    have hr : iOffset % file.block0.data.toBytes.length <
        file.block0.data.toBytes.length := Nat.mod_lt _ (by omega)
    simp only [List.length_nil, Nat.add_zero]
    rw [Nat.add_mul, Nat.one_mul]
    rw [Nat.mul_comm] at e
    generalize iOffset / file.block0.data.toBytes.length *
      file.block0.data.toBytes.length = t at e ⊢
    omega
  refine ⟨?_, ?_, ?_⟩
  · intro hge
    unfold xRead
    rw [if_neg hnotgen, if_pos hge]
    simp [jsFillFrom]
  · intro hlt b hb
    have hnotge : ¬ iOffset ≥ file.block0.fileSize := by omega
    by_cases hz1 : iOffset / file.block0.data.toBytes.length = 0
    · have hlen : iOffset < file.block0.data.toBytes.length := by
        by_contra hc
        have h1 : 1 ≤ iOffset / file.block0.data.toBytes.length :=
          (Nat.one_le_div_iff (by omega)).mpr (by omega)
        omega
      have hfast : ¬ (file.block0.data.toBytes.length < iOffset) := by omega
      rw [hz1, Nat.cast_zero] at hb
      by_cases hz2 : file.block0.version > b.version
      · exact ⟨{ file with block0 := b },
          by simp [xRead, hz1, hfast, hnotge, hb, hz2, jsSetAt], rfl, rfl⟩
      · exact ⟨file, by simp [xRead, hz1, hfast, hnotge, hb, hz2, jsSetAt], rfl, rfl⟩
    · refine ⟨file, ?_, rfl, rfl⟩
      simp at hb
      have hfast2 : ¬ ((iOffset / file.block0.data.toBytes.length + 1) *
          file.block0.data.toBytes.length < iOffset) := by
        simpa using hnotgen
      simp [xRead, hfast2, hnotge, hb, jsSetAt]
      exact fun h => absurd h hz1
  · intro hle hslow
    have hdisp : xWriteDispatch file.block0.data.toBytes.length file.block0.fileSize
        iOffset ([] : List Nat).length = true := by
      apply (xWriteDispatch_iff _ _ _ _).mpr
      rcases hslow with h | h
      · exact Or.inl h
      · exact Or.inr ⟨h, by simpa using fun he => hbs he.symm⟩
    unfold xWriteDb
    rw [if_pos hdisp]
    simp [xWriteGeneral, xWriteGeneralLoop.eq_def, Nat.max_eq_left hle]

theorem claim_C9_zero_length_witness :
    (⟨"/db", .num (.int 0), 0, .bytes (List.replicate 8 0), 0⟩ :
      FileBlock).data.toBytes.length ≠ 0 ∧
    ((0 : Nat) ≥ 0 →
      xRead [] ⟨"/db", 0, ⟨"/db", .num (.int 0), 0, .bytes (List.replicate 8 0), 0⟩,
          [], none, none, none⟩ [] 0 =
        some ⟨⟨"/db", 0, ⟨"/db", .num (.int 0), 0, .bytes (List.replicate 8 0), 0⟩,
          [], none, none, none⟩, [], SQLITE_IOERR_SHORT_READ⟩) :=
  ⟨by decide,
    (claim_C9_zero_length []
      ⟨"/db", 0, ⟨"/db", .num (.int 0), 0, .bytes (List.replicate 8 0), 0⟩,
        [], none, none, none⟩ 0 (by decide)).1⟩

/-- C4: a journal-header write (offset 0, non-zero first byte) copies the
incoming bytes into the in-memory journal header and, on the sibling
database file, resets `journalPages` to the empty list and `changedPages`
to the empty set, and decrements the in-memory block-0 version by exactly
one; when the pre-state version equals the newest committed block-0
version in the KVS, the new in-memory version is therefore one less than
(newer than) it. -/
theorem claim_C4_journal_header (file dbFile : OpenedFileEntry) (buf : List Nat)
    (store : List FileBlock) (hb : buf.getD 0 0 ≠ 0) (hbuf : buf ≠ [])
    (hhdr : file.block0.data.toBytes ≠ []) :
    (xWriteJournal file dbFile buf 0).dbFile.journalPages = [] ∧
    (xWriteJournal file dbFile buf 0).dbFile.changedPages = some [] ∧
    (xWriteJournal file dbFile buf 0).dbFile.block0.version =
      dbFile.block0.version - 1 ∧
    (∀ i : Nat, i < min buf.length file.block0.data.toBytes.length →
      (xWriteJournal file dbFile buf 0).file.block0.data.toBytes.getD i 0 =
        buf.getD i 0) ∧
    (∀ V : Int,
      (newestBlock store (journalDatabasePath file.path) 0).map (fun r => r.version) =
        some V →
      dbFile.block0.version = V →
      (xWriteJournal file dbFile buf 0).dbFile.block0.version = V - 1) := by
  have hcopy : ∀ i : Nat, i < min buf.length file.block0.data.toBytes.length →
      (jsSetAt file.block0.data.toBytes
        (jsSubarray buf 0 file.block0.data.toBytes.length) 0).getD i 0 = buf.getD i 0 := by
    intro i hi
    unfold jsSetAt jsSubarray
    simp only [List.drop_zero, List.take_nil, List.nil_append, Nat.sub_zero,
      List.take_take, Nat.min_self, List.take_zero, Nat.zero_add]
    rw [getD_append_lt]
    · exact getD_take_lt buf _ i 0 (by omega)
    · rw [List.length_take]
      omega
  have hfirst : (jsSetAt file.block0.data.toBytes
      (jsSubarray buf 0 file.block0.data.toBytes.length) 0).getD 0 0 ≠ 0 := by
    rw [hcopy 0 (by
      cases buf with
      | nil => exact absurd rfl hbuf
      | cons x xs =>
        cases hd : file.block0.data.toBytes with
        | nil => exact absurd hd hhdr
        | cons y ys => simp)]
    exact hb
  unfold xWriteJournal
  rw [if_pos rfl, if_pos hfirst]
  refine ⟨rfl, rfl, rfl, hcopy, ?_⟩
  intro V _ hV
  simp only
  rw [hV]

theorem claim_C4_journal_header_witness :
    ([(7 : Nat), 0] : List Nat).getD 0 0 ≠ 0 ∧ ([(7 : Nat), 0] : List Nat) ≠ [] ∧
    (⟨"/db-journal", .num (.int 0), 0, .bytes (List.replicate 12 0), 0⟩ :
      FileBlock).data.toBytes ≠ [] ∧
    (xWriteJournal
      ⟨"/db-journal", 0x800, ⟨"/db-journal", .num (.int 0), 0,
        .bytes (List.replicate 12 0), 0⟩, [], none, none, none⟩
      ⟨"/db", 0x100, ⟨"/db", .num (.int 0), -1, .bytes (List.replicate 8 0), 8⟩,
        [some 1], some [1], none, none⟩
      [7, 0] 0).dbFile.journalPages = [] :=
  ⟨by decide, by decide, by decide,
    (claim_C4_journal_header
      ⟨"/db-journal", 0x800, ⟨"/db-journal", .num (.int 0), 0,
        .bytes (List.replicate 12 0), 0⟩, [], none, none, none⟩
      ⟨"/db", 0x100, ⟨"/db", .num (.int 0), -1, .bytes (List.replicate 8 0), 8⟩,
        [some 1], some [1], none, none⟩
      [7, 0] [] (by decide) (by decide) (by decide)).1⟩

/-- C8: a lock call at exactly the RESERVED level sweeps the KVS: with
the in-memory block-0 version equal to the published (newest committed)
block-0 version `V`, it deletes precisely the records of the file whose
version is strictly smaller (newer) than `V`, keeping every record at or
above `V`; lock calls at any other level leave the store untouched. -/
theorem claim_C8_reserved (pathToFile : String → Option OpenedFileEntry)
    (file : OpenedFileEntry) (store : List FileBlock) (V : Int)
    (hpath : journalDatabasePath file.path = file.path)
    (hmap : pathToFile file.path = some file)
    (_hpub : (newestBlock store file.path 0).map (fun r => r.version) = some V)
    (hmem : file.block0.version = V) :
    (∃ store', xLock pathToFile file SQLITE_LOCK_RESERVED store = some store' ∧
      ∀ r, r ∈ store' ↔ (r ∈ store ∧ ¬(r.name = file.path ∧ r.version < V))) ∧
    (∀ flags, flags ≠ SQLITE_LOCK_RESERVED → xLock pathToFile file flags store = some store) := by
  constructor
  · simp only [xLock]
    rw [if_pos trivial, hpath, hmap]
    refine ⟨_, rfl, ?_⟩
    intro r
    rw [List.mem_filter]
    constructor
    · rintro ⟨hr, hpred⟩
      refine ⟨hr, ?_⟩
      rintro ⟨hname, hver⟩
      rw [Bool.not_eq_true'] at hpred
      rw [Bool.eq_false_iff] at hpred
      exact hpred ((inRange_versionIndex _ _ _ _).mpr ⟨hname, by omega⟩)
    · rintro ⟨hr, hno⟩
      refine ⟨hr, ?_⟩
      rw [Bool.not_eq_true', Bool.eq_false_iff]
      intro hc
      rcases (inRange_versionIndex _ _ _ _).mp hc with ⟨hname, hver⟩
      exact hno ⟨hname, by omega⟩
  · intro flags hflags
    simp only [xLock]
    rw [if_neg hflags]

theorem claim_C8_reserved_witness :
    journalDatabasePath "/db" = "/db" ∧
    (fun p => if p = "/db" then
        some (⟨"/db", 0x100, ⟨"/db", .num (.int 0), -1, .bytes [0], 1⟩,
          [], none, none, none⟩ : OpenedFileEntry) else none) "/db" =
      some ⟨"/db", 0x100, ⟨"/db", .num (.int 0), -1, .bytes [0], 1⟩, [], none, none, none⟩ ∧
    (newestBlock [⟨"/db", .num (.int 0), -1, .bytes [0], 1⟩,
        ⟨"/db", .num (.int 1), -2, .bytes [7], 0⟩,
        ⟨"/db", .num (.int 1), 0, .bytes [5], 0⟩] "/db" 0).map (fun r => r.version) =
      some (-1) ∧
    (∃ store', xLock
        (fun p => if p = "/db" then
          some (⟨"/db", 0x100, ⟨"/db", .num (.int 0), -1, .bytes [0], 1⟩,
            [], none, none, none⟩ : OpenedFileEntry) else none)
        ⟨"/db", 0x100, ⟨"/db", .num (.int 0), -1, .bytes [0], 1⟩, [], none, none, none⟩
        SQLITE_LOCK_RESERVED
        [⟨"/db", .num (.int 0), -1, .bytes [0], 1⟩,
          ⟨"/db", .num (.int 1), -2, .bytes [7], 0⟩,
          ⟨"/db", .num (.int 1), 0, .bytes [5], 0⟩] = some store' ∧
      ∀ r, r ∈ store' ↔ (r ∈ [⟨"/db", .num (.int 0), -1, .bytes [0], 1⟩,
          ⟨"/db", .num (.int 1), -2, .bytes [7], 0⟩,
          ⟨"/db", .num (.int 1), 0, .bytes [5], 0⟩] ∧
        ¬(r.name = "/db" ∧ r.version < -1))) :=
  ⟨by decide, by decide, by decide,
    (claim_C8_reserved
      (fun p => if p = "/db" then
        some (⟨"/db", 0x100, ⟨"/db", .num (.int 0), -1, .bytes [0], 1⟩,
          [], none, none, none⟩ : OpenedFileEntry) else none)
      ⟨"/db", 0x100, ⟨"/db", .num (.int 0), -1, .bytes [0], 1⟩, [], none, none, none⟩
      [⟨"/db", .num (.int 0), -1, .bytes [0], 1⟩,
        ⟨"/db", .num (.int 1), -2, .bytes [7], 0⟩,
        ⟨"/db", .num (.int 1), 0, .bytes [5], 0⟩]
      (-1) (by decide) (by decide) (by decide) (by decide)).1⟩

theorem purgeMapGet_mem {m : List (Int × Int)} {k v : Int}
    (h : purgeMapGet m k = some v) : (k, v) ∈ m := by
  unfold purgeMapGet at h
  cases hf : List.find? (fun p => decide (p.1 = k)) m with
  | none => rw [hf] at h; cases h
  | some q =>
    rw [hf] at h
    have h1 : q.1 = k := by simpa using List.find?_some hf
    have h2 : q.2 = v := by
      simpa using h
    have hq : (k, v) = q := by
      rw [← h1, ← h2]
    rw [hq]
    exact List.mem_of_find?_eq_some hf

/-- C1: `xSync` on a database file (a) puts the cached block 0 into the
KVS under its key, publishing the new version; (b) when `changedPages` is
set, reads or creates the purge record and maps every page index that
occurs both in `journalPages` and in `changedPages` to the new block-0
version, so that running `purge` afterwards removes every strictly older
(numerically larger) version of those pages; and (c) awaits the KVS sync
exactly when the configured durability is not "relaxed". -/
theorem claim_C1_sync (durability : String) (file : OpenedFileEntry)
    (store : List FileBlock) (changed : List Int)
    (hj : isJournal file = false) (hcp : file.changedPages = some changed)
    (hidx : file.block0.index = .num (.int 0)) :
    (xSync durability file store).status = SQLITE_OK ∧
    kvsGetKey (xSync durability file store).store (recordKey file.block0) =
      some file.block0 ∧
    (∃ pm, kvsGetKey (xSync durability file store).store (purgeKey file.path) = some pm ∧
      (∀ pi : Int, some pi ∈ file.journalPages → pi ∈ changed →
        purgeMapGet pm.data.toPurgeMap pi = some file.block0.version) ∧
      (∀ pi : Int, some pi ∈ file.journalPages → pi ∈ changed →
        ∀ r ∈ (xSync durability file store).store, r.name = file.path →
          r.index = .num (.int pi) → file.block0.version < r.version →
          r ∉ purge file.path (xSync durability file store).store)) ∧
    ((xSync durability file store).awaitedSync = true ↔ durability ≠ "relaxed") := by
  have hout : xSync durability file store =
      ⟨kvsPut (kvsPut store file.block0)
        { (kvsGetKey (kvsPut store file.block0) (purgeKey file.path)).getD
            ⟨file.path, .str "purge", 0, .purgeMap [], 0⟩ with
          data := .purgeMap (file.journalPages.foldl (fun m pi =>
            match pi with
            | some p => if p ∈ changed then purgeMapSet m p file.block0.version else m
            | none => m)
            ((kvsGetKey (kvsPut store file.block0) (purgeKey file.path)).getD
              ⟨file.path, .str "purge", 0, .purgeMap [], 0⟩).data.toPurgeMap) },
        decide (durability ≠ "relaxed"), SQLITE_OK⟩ := by
    simp only [xSync, hj, Bool.false_eq_true, if_false, hcp]
  have hpmkey : recordKey
      { (kvsGetKey (kvsPut store file.block0) (purgeKey file.path)).getD
          ⟨file.path, .str "purge", 0, .purgeMap [], 0⟩ with
        data := .purgeMap (file.journalPages.foldl (fun m pi =>
          match pi with
          | some p => if p ∈ changed then purgeMapSet m p file.block0.version else m
          | none => m)
          ((kvsGetKey (kvsPut store file.block0) (purgeKey file.path)).getD
            ⟨file.path, .str "purge", 0, .purgeMap [], 0⟩).data.toPurgeMap) } =
      purgeKey file.path := by
    cases hget : kvsGetKey (kvsPut store file.block0) (purgeKey file.path) with
    | none => rfl
    | some q =>
      show [KComp.str q.name, q.index, .num (.int q.version)] = purgeKey file.path
      have hq : recordKey q = purgeKey file.path := by
        simpa using List.find?_some hget
      exact hq
  have hb0ne : recordKey file.block0 ≠ purgeKey file.path := by
    unfold recordKey purgeKey
    rw [hidx]
    intro hc
    injection hc with _ hc2
    injection hc2 with hc3
    cases hc3
  refine ⟨by rw [hout], ?_, ?_, by rw [hout]; simp⟩
  · rw [hout]
    show kvsGetKey (kvsPut (kvsPut store file.block0) _) (recordKey file.block0) = _
    rw [kvsGetKey_put_ne _ _ _ (by rw [hpmkey]; exact hb0ne)]
    exact kvsGetKey_put_self store file.block0
  · have hgetp : kvsGetKey (xSync durability file store).store (purgeKey file.path) =
        some { (kvsGetKey (kvsPut store file.block0) (purgeKey file.path)).getD
            ⟨file.path, .str "purge", 0, .purgeMap [], 0⟩ with
          data := .purgeMap (file.journalPages.foldl (fun m pi =>
            match pi with
            | some p => if p ∈ changed then purgeMapSet m p file.block0.version else m
            | none => m)
            ((kvsGetKey (kvsPut store file.block0) (purgeKey file.path)).getD
              ⟨file.path, .str "purge", 0, .purgeMap [], 0⟩).data.toPurgeMap) } := by
      rw [hout]
      have base := kvsGetKey_put_self (kvsPut store file.block0)
        { (kvsGetKey (kvsPut store file.block0) (purgeKey file.path)).getD
            ⟨file.path, .str "purge", 0, .purgeMap [], 0⟩ with
          data := .purgeMap (file.journalPages.foldl (fun m pi =>
            match pi with
            | some p => if p ∈ changed then purgeMapSet m p file.block0.version else m
            | none => m)
            ((kvsGetKey (kvsPut store file.block0) (purgeKey file.path)).getD
              ⟨file.path, .str "purge", 0, .purgeMap [], 0⟩).data.toPurgeMap) }
      rw [hpmkey] at base
      exact base
    refine ⟨_, hgetp, ?_, ?_⟩
    · intro pi hjp hch
      exact syncFold_establish changed file.block0.version file.journalPages _ pi hjp hch
    · intro pi hjp hch r _hr hrname hrindex hrver hrp
      unfold purge at hrp
      rw [hgetp] at hrp
      have hentry : (pi, file.block0.version) ∈
          (file.journalPages.foldl (fun m pi =>
            match pi with
            | some p => if p ∈ changed then purgeMapSet m p file.block0.version else m
            | none => m)
            ((kvsGetKey (kvsPut store file.block0) (purgeKey file.path)).getD
              ⟨file.path, .str "purge", 0, .purgeMap [], 0⟩).data.toPurgeMap) :=
        purgeMapGet_mem
          (syncFold_establish changed file.block0.version file.journalPages _ pi hjp hch)
      rcases mem_kvsDeleteKey.mp hrp with ⟨hrfold, _⟩
      rcases mem_purgeFold _ _ _ hrfold with ⟨_, hall⟩
      have hbad := hall (pi, file.block0.version) hentry
      rw [show recordKey r = [.str r.name, r.index, .num (.int r.version)] from rfl] at hbad
      rw [Bool.eq_false_iff] at hbad
      exact hbad ((inRange_pageVersions _ _ _ _ _ _).mpr ⟨hrname, hrindex, hrver⟩)

theorem claim_C1_sync_witness :
    isJournal ⟨"/a", 0, ⟨"/a", .num (.int 0), -1, .bytes [0], 1⟩,
      [some 1, none, some 2], some [1], none, none⟩ = false ∧
    (⟨"/a", 0, ⟨"/a", .num (.int 0), -1, .bytes [0], 1⟩,
      [some 1, none, some 2], some [1], none, none⟩ :
        OpenedFileEntry).changedPages = some [1] ∧
    (⟨"/a", .num (.int 0), -1, .bytes [0], 1⟩ : FileBlock).index = .num (.int 0) ∧
    (xSync "default"
      ⟨"/a", 0, ⟨"/a", .num (.int 0), -1, .bytes [0], 1⟩,
        [some 1, none, some 2], some [1], none, none⟩
      [⟨"/a", .num (.int 1), 0, .bytes [7], 0⟩]).status = SQLITE_OK :=
  ⟨by decide, by decide, by decide,
    (claim_C1_sync "default"
      ⟨"/a", 0, ⟨"/a", .num (.int 0), -1, .bytes [0], 1⟩,
        [some 1, none, some 2], some [1], none, none⟩
      [⟨"/a", .num (.int 1), 0, .bytes [7], 0⟩] [1]
      (by decide) (by decide) (by decide)).1⟩

/-- C6: journal reads are pure functions of the stored database blocks,
the in-memory journal header and the journal metadata: a second read of
the same offset with the same buffer, performed in the cache state left
by the first read, transfers byte-for-byte the same buffer with the same
status; and whenever a page entry is (re)built, its page bytes come from
a single stored record of the sibling database file at the looked-up page
index whose version is strictly greater (strictly older) than the
database's current in-memory block-0 version. -/
theorem claim_C6_journal_read (store : List FileBlock) (cache : VfsCache)
    (file dbFile : OpenedFileEntry) (buf : List Nat) (iOffset : Nat)
    (o1 : JournalReadOutcome)
    (h1 : xReadJournal store cache file dbFile buf iOffset = some o1) :
    (∃ c2, xReadJournal store o1.cache file dbFile buf iOffset =
      some ⟨c2, o1.buf, o1.status⟩) ∧
    (∀ pageIndex : Int,
      iOffset ≥ getU32 file.block0.data.toBytes 20 →
      dbFile.journalPages.getD
        ((iOffset - getU32 file.block0.data.toBytes 20) /
          (dbFile.block0.data.toBytes.length + 8)) none = some pageIndex →
      file.cachedPageIndex ≠ some pageIndex →
      ∃ b ∈ store, b.name = journalDatabasePath file.path ∧
        b.index = .num (.int pageIndex) ∧ dbFile.block0.version < b.version ∧
        o1.buf = jsSetAt buf (jsSubarray
          (buildPageEntry pageIndex b.data.toBytes (getU32 file.block0.data.toBytes 12)
            dbFile.block0.data.toBytes.length (dbFile.block0.data.toBytes.length + 8))
          ((iOffset - getU32 file.block0.data.toBytes 20) %
            (dbFile.block0.data.toBytes.length + 8))
          ((iOffset - getU32 file.block0.data.toBytes 20) %
            (dbFile.block0.data.toBytes.length + 8) + buf.length)) 0) := by
  simp only [xReadJournal] at h1
  by_cases hoff : iOffset ≥ getU32 file.block0.data.toBytes 20
  · rw [if_pos hoff] at h1
    cases hjp : dbFile.journalPages.getD
        ((iOffset - getU32 file.block0.data.toBytes 20) /
          (dbFile.block0.data.toBytes.length + 8)) none with
    | none =>
      rw [hjp] at h1
      simp only [] at h1
      cases h1
    | some pageIndex =>
      rw [hjp] at h1
      simp only [] at h1
      by_cases hmiss : file.cachedPageIndex ≠ some pageIndex
      · rw [if_pos hmiss] at h1
        cases hfetch : kvsGetRange store
            [.str (journalDatabasePath file.path), .num (.int pageIndex),
              .num (.int dbFile.block0.version)]
            [.str (journalDatabasePath file.path), .num (.int pageIndex), .num .inf]
            true false with
        | none =>
          rw [hfetch] at h1
          simp only [] at h1
          cases h1
        | some block =>
          rw [hfetch] at h1
          simp only [] at h1
          have ho1 := Option.some.inj h1
          subst ho1
          constructor
          · refine ⟨⟨some pageIndex, some (buildPageEntry pageIndex block.data.toBytes
              (getU32 file.block0.data.toBytes 12) dbFile.block0.data.toBytes.length
              (dbFile.block0.data.toBytes.length + 8))⟩, ?_⟩
            simp only [xReadJournal]
            rw [if_pos hoff, hjp]
            simp only []
            rw [if_pos hmiss, hfetch]
          · intro pageIndex' _ hjp' hmiss'
            have hpi := Option.some.inj hjp'
            subst hpi
            rcases kvsGetRange_mem hfetch with ⟨hmem, hin⟩
            rw [show recordKey block =
              [.str block.name, block.index, .num (.int block.version)] from rfl] at hin
            rcases (inRange_pageVersions _ _ _ _ _ _).mp hin with ⟨hbname, hbidx, hbver⟩
            exact ⟨block, hmem, hbname, hbidx, hbver, rfl⟩
      · rw [if_neg hmiss] at h1
        cases hce : cache.cachedPageEntry with
        | none =>
          rw [hce] at h1
          simp only [] at h1
          cases h1
        | some e =>
          rw [hce] at h1
          simp only [] at h1
          have ho1 := Option.some.inj h1
          subst ho1
          constructor
          · refine ⟨cache, ?_⟩
            simp only [xReadJournal]
            rw [if_pos hoff, hjp]
            simp only []
            rw [if_neg hmiss, hce]
          · intro pageIndex' _ hjp' hmiss'
            have hpi := Option.some.inj hjp'
            subst hpi
            exact absurd hmiss' hmiss
  · rw [if_neg hoff] at h1
    have ho1 := Option.some.inj h1
    subst ho1
    constructor
    · refine ⟨cache, ?_⟩
      simp only [xReadJournal]
      rw [if_neg hoff]
    · intro pageIndex hge _ _
      exact absurd hge hoff

theorem claim_C6_journal_read_witness :
    xReadJournal
        [⟨"/a", .num (.int 2), 0, .bytes [4, 5, 6, 7], 0⟩] ⟨none, none⟩
        ⟨"/a-journal", 0x800, ⟨"/a-journal", .num (.int 0), 0,
          .bytes (List.replicate 12 1 ++ [0, 0, 0, 9] ++ [0, 0, 0, 0] ++ [0, 0, 0, 12]), 24⟩,
          [], none, none, none⟩
        ⟨"/a", 0x100, ⟨"/a", .num (.int 0), -1, .bytes [9, 9, 9, 9], 4⟩,
          [some 2], some [], none, none⟩
        [0, 0, 0, 0] 12 =
      some ⟨⟨some 2, some [0, 0, 0, 3, 4, 5, 6, 7, 0, 0, 0, 9]⟩, [0, 0, 0, 3], SQLITE_OK⟩ ∧
    (∃ c2, xReadJournal
        [⟨"/a", .num (.int 2), 0, .bytes [4, 5, 6, 7], 0⟩]
        ⟨some 2, some [0, 0, 0, 3, 4, 5, 6, 7, 0, 0, 0, 9]⟩
        ⟨"/a-journal", 0x800, ⟨"/a-journal", .num (.int 0), 0,
          .bytes (List.replicate 12 1 ++ [0, 0, 0, 9] ++ [0, 0, 0, 0] ++ [0, 0, 0, 12]), 24⟩,
          [], none, none, none⟩
        ⟨"/a", 0x100, ⟨"/a", .num (.int 0), -1, .bytes [9, 9, 9, 9], 4⟩,
          [some 2], some [], none, none⟩
        [0, 0, 0, 0] 12 =
      some ⟨c2, [0, 0, 0, 3], SQLITE_OK⟩) :=
  ⟨by decide,
    (claim_C6_journal_read
      [⟨"/a", .num (.int 2), 0, .bytes [4, 5, 6, 7], 0⟩] ⟨none, none⟩
      ⟨"/a-journal", 0x800, ⟨"/a-journal", .num (.int 0), 0,
        .bytes (List.replicate 12 1 ++ [0, 0, 0, 9] ++ [0, 0, 0, 0] ++ [0, 0, 0, 12]), 24⟩,
        [], none, none, none⟩
      ⟨"/a", 0x100, ⟨"/a", .num (.int 0), -1, .bytes [9, 9, 9, 9], 4⟩,
        [some 2], some [], none, none⟩
      [0, 0, 0, 0] 12
      ⟨⟨some 2, some [0, 0, 0, 3, 4, 5, 6, 7, 0, 0, 0, 9]⟩, [0, 0, 0, 3], SQLITE_OK⟩
      (by decide)).1⟩

end IndexedDbVFS
